import Mathlib

/-!
Verification development for the `automata` repository: a shallow embedding in
Lean 4 of the user-reconciliation engine (GitLab group membership synced to
local OS accounts, SSH authorized-keys files and a sudoers fragment), together
with theorems settling the specification's claims against the code.

Python strings are embedded as Lean `String` acting on the underlying `List
Char`; machine integers are `Nat`; fallible operations return `Except`;
filesystem and subprocess effects are made explicit (the outcome of a command
or of `os.makedirs` is a parameter, and writes performed are returned as data).
-/

deriving instance DecidableEq for Except

namespace Automata

/-- Error taxonomy of `helpers/user_operations.py` (`UOError` subclasses). -/
inductive UOError
  | groupNotFound
  | userNotFound
  | protectedGroup
  | protectedUser
  | userAlreadyExists
  | groupAlreadyExists
  | cannotCreateDirectory (message : String)
  deriving DecidableEq, Repr

/-- Shell commands `UserOps` issues via `subprocess.check_call`. -/
inductive Cmd
  | userdel (user : String)
  | useradd (user : String)
  deriving DecidableEq, Repr

namespace ConfigOps

/-- Python's word-character class of `re` on the ASCII range: `[A-Za-z0-9_]`.
(The embedding is faithful to Python's regex semantics for ASCII input.) -/
def isWordChar (c : Char) : Bool :=
  c.isAlphanum || c = '_'

/-- `helpers/config_operations.py` `sanitize_username`:
substitute every character not matched by the word class with an underscore. -/
def sanitize_username (username : String) : String :=
  ⟨username.data.map (fun c => if isWordChar c then c else '_')⟩

/-- Python whitespace class of `re` on the ASCII range. -/
def isSpaceChar (c : Char) : Bool :=
  c = ' ' || c = '\t' || c = '\n' || c = '\r' || c = '\x0b' || c = '\x0c'

/-- Collapse each maximal run of whitespace to one space; the Boolean records
whether the previous character was part of a whitespace run. -/
def collapseWS : Bool → List Char → List Char
  | _, [] => []
  | prevWS, c :: rest =>
    if isSpaceChar c then
      if prevWS then collapseWS true rest else ' ' :: collapseWS true rest
    else c :: collapseWS false rest

/-- `helpers/config_operations.py` `sanitize_sudoers_line`:
substitute every maximal whitespace run with a single space. -/
def sanitize_sudoers_line (sudoers_line : String) : String :=
  ⟨collapseWS false sudoers_line.data⟩

end ConfigOps

namespace SSHKeyObject

/-- `ssh_key_object.py` `sanitize_username`: `username.replace(".", "_")`
with the default replacement character. -/
def sanitize_username (username : String) : String :=
  ⟨username.data.map (fun c => if c = '.' then '_' else c)⟩

/-- `ssh_key_object.py` `SSHKeyObject.dump_authorized_keys`:
the newline-join of the stored keys followed by a newline. -/
def dump_authorized_keys (ssh_keys : List String) : String :=
  String.intercalate "\n" ssh_keys ++ "\n"

end SSHKeyObject

/-- The specification's canonicalization, stated from its words for comparison
with the code: replace any character outside `[A-Za-z0-9_]` with an
underscore. -/
def spec_canonicalUsername (username : String) : String :=
  ⟨username.data.map (fun c =>
    if ('A' ≤ c && c ≤ 'Z') || ('a' ≤ c && c ≤ 'z') || ('0' ≤ c && c ≤ '9') || c = '_'
    then c else '_')⟩

namespace UserOps

/-- `helpers/user_operations.py` `UserOps.get_user_uid`: look a user up in the
passwd database (a partial map from usernames to uids); absence raises
`UOUserNotFoundError`. -/
def get_user_uid (passwd : String → Option Nat) (user : String) : Except UOError Nat :=
  match passwd user with
  | none => Except.error UOError.userNotFound
  | some uid => Except.ok uid

/-- `helpers/user_operations.py` `UserOps.delete_user`: refuse (raising
`UOProtectedUserError`) when the uid is at most 1000 and `delete_system_users`
is off, otherwise run `userdel`. The second component lists the commands
actually executed. -/
def delete_user (passwd : String → Option Nat) (delete_system_users : Bool)
    (user : String) : Except UOError Unit × List Cmd :=
  match get_user_uid passwd user with
  | Except.error e => (Except.error e, [])
  | Except.ok uid =>
    if uid ≤ 1000 && !delete_system_users then (Except.error UOError.protectedUser, [])
    else (Except.ok (), [Cmd.userdel user])

/-- `helpers/user_operations.py` `UserOps.create_user`: run `useradd`
(`useraddExit = none` models exit status 0, `some c` models
`CalledProcessError` with returncode `c`); a returncode of 9 raises
`UOUserAlreadyExistsError`, any other outcome falls through to
`get_user_uid` on the passwd state left after the attempt. -/
def create_user (passwdAfter : String → Option Nat) (useraddExit : Option Nat)
    (user : String) : Except UOError Nat :=
  match useraddExit with
  | some 9 => Except.error UOError.userAlreadyExists
  | _ => get_user_uid passwdAfter user

end UserOps

namespace AutomataScript

/-- `automata.py` line 113: local accounts no longer in the GitLab group. -/
def removed_users (current_users gitlab_users : Finset String) : Finset String :=
  current_users \ gitlab_users

/-- `automata.py` line 125: GitLab members without a local account. -/
def created_users (current_users gitlab_users : Finset String) : Finset String :=
  gitlab_users \ current_users

/-- The externally visible operations of one `automata.py` run, in the order
the script performs them. -/
inductive Event
  | delete (user : String)
  | create (user : String)
  | writeKeys (user : String)
  | writeSudoers
  deriving DecidableEq, Repr

/-- Position of an operation's phase in the script's order. -/
def Event.rank : Event → Nat
  | Event.delete _ => 0
  | Event.create _ => 1
  | Event.writeKeys _ => 2
  | Event.writeSudoers => 3

/-- One of the script's `for` loops: each user in order yields one operation;
`ok` gives the outcome of its `subprocess.check_call` (or key write), and a
failure raises, aborting the whole script at that point. Returns the
operations attempted and whether the loop completed. -/
def runLoop (mk : String → Event) (ok : Event → Bool) :
    List String → List Event × Bool
  | [] => ([], true)
  | u :: rest =>
    if ok (mk u) then
      (mk u :: (runLoop mk ok rest).1, (runLoop mk ok rest).2)
    else ([mk u], false)

/-- `automata.py` lines 119-160: the deletion loop over
`current_users − gitlab_users`, then the creation loop over
`gitlab_users − current_users`, then the key-regeneration loop over the
GitLab members, then the sudoers write; an unhandled exception in any loop
terminates the script there. Returns the trace of operations attempted and
whether the run completed. -/
def automataRun (gitlab_users current_users : List String) (ok : Event → Bool) :
    List Event × Bool :=
  let deletions := runLoop Event.delete ok
    (current_users.filter (fun u => !gitlab_users.contains u))
  if deletions.2 then
    let creations := runLoop Event.create ok
      (gitlab_users.filter (fun u => !current_users.contains u))
    if creations.2 then
      let keyWrites := runLoop Event.writeKeys ok gitlab_users
      if keyWrites.2 then
        (deletions.1 ++ creations.1 ++ keyWrites.1 ++ [Event.writeSudoers], true)
      else (deletions.1 ++ creations.1 ++ keyWrites.1, false)
    else (deletions.1 ++ creations.1, false)
  else (deletions.1, false)

/-- A trace visits the script's phases in order: deletions, then creations,
then key writes, then the sudoers write. -/
def PhaseSorted (tr : List Event) : Prop :=
  tr.Pairwise (fun a b => Event.rank a ≤ Event.rank b)

end AutomataScript

/-- `os.path.join` for one extra component, as the code uses it. -/
def pathJoin (a b : String) : String :=
  if b.data.head? = some '/' then b
  else if a = "" then b
  else if a.data.getLast? = some '/' then a ++ b
  else a ++ "/" ++ b

/-- Outcome of an `os.makedirs` call. -/
inductive MkdirResult
  | ok
  | fileExists
  | osError
  deriving DecidableEq, Repr

/-- A file write performed by the code: target path and content written. -/
structure FileWrite where
  path : String
  contents : String
  deriving DecidableEq, Repr

/-- Modelled from the spec: `helpers/ssh_key_object.py` (which provides the
`get_authorized_keys` method consumed by `UserOps.populate_ssh_file`) is not
in the source tree; the spec fixes the key-file content as the newline-joined
list of `sshKeys` with a trailing newline. -/
def get_authorized_keys (ssh_keys : List String) : String :=
  String.intercalate "\n" ssh_keys ++ "\n"

/-- `helpers/gitlab_operations.py` `GitlabGroupConfig` namedtuple. -/
structure GitlabGroupConfig where
  gitlab_group : String
  linux_group : String
  sudoers_line : String
  other_groups : List String
  deriving DecidableEq, Repr

namespace UserOps

/-- `helpers/user_operations.py` `UserOps.populate_ssh_file`: computes the
`.ssh` directory path from `base_dir`, creates it (`mkdir` gives the outcome
of `os.makedirs`; `fileExists` — Python's `FileExistsError` — is ignored, any
other `OSError` raises `UOCannotCreateDirectory`), resolves the uid of the
sanitized username, and writes the authorized-keys file. Returns the file
write performed. -/
def populate_ssh_file (base_dir : String) (passwd : String → Option Nat)
    (username : String) (ssh_keys : List String)
    (mkdir : String → MkdirResult) : Except UOError FileWrite :=
  let uname := ConfigOps.sanitize_username username
  let contents := get_authorized_keys ssh_keys
  let basePath := pathJoin base_dir ".ssh"
  let keysPath := pathJoin basePath "authorized_keys"
  match mkdir basePath with
  | MkdirResult.osError =>
    Except.error (UOError.cannotCreateDirectory
      ("Cannot create '" ++ basePath ++ "' directory."))
  | _ =>
    match passwd uname with
    | none => Except.error UOError.userNotFound
    | some _uid => Except.ok { path := keysPath, contents := contents }

/-- `helpers/user_operations.py` `UserOps.generate_sudoers_file`: the content
written to the sudoers file, which is opened with mode `w` (prior content
discarded); per group the template writes a percent sign, the sanitized group
name, a space and the sanitized sudoers line. -/
def generate_sudoers_file (gitlab_groups : List GitlabGroupConfig) : String :=
  String.join (gitlab_groups.map (fun g =>
    "%" ++ ConfigOps.sanitize_username g.linux_group ++ " "
      ++ ConfigOps.sanitize_sudoers_line g.sudoers_line))

end UserOps

/-- A GitLab group-member record as returned by the members API. -/
structure MemberRec where
  id : Nat
  username : String
  state : String
  deriving DecidableEq, Repr

/-- The parsed JSON body shapes `process_response_from_server` distinguishes:
a dict (error shape, fields embedded as string key/value pairs) or the list of
group members (success shape). -/
inductive GLResponse
  | dict (entries : List (String × String))
  | list (items : List MemberRec)
  deriving DecidableEq, Repr

/-- Python exceptions that can escape the GitLab query path. -/
inductive PyErr
  | glConnectionError
  | glApiQueryError (message : String)
  | keyError (key : String)
  | typeErrorUnhashableDict
  deriving DecidableEq, Repr

namespace GitlabOps

/-- Dict membership test / item access: first matching key. -/
def dictGet (entries : List (String × String)) (k : String) : Option String :=
  (entries.find? (fun e => e.1 = k)).map Prod.snd

/-- `helpers/gitlab_operations.py` `GitlabOps.process_response_from_server`.
`fetch = none` models `requests.get` raising `ConnectionError`; `some r` the
parsed JSON body. A dict with an `error` key raises `GLApiQueryError` carrying
the `error_description` value — a `KeyError` when that key is absent; a dict
with a `message` key raises `GLApiQueryError`; any other dict evaluates
`response[response]`, indexing the dict with itself — an unhashable dict key,
hence a `TypeError`. -/
def process_response_from_server (fetch : Option GLResponse) :
    Except PyErr (List MemberRec) :=
  match fetch with
  | none => Except.error PyErr.glConnectionError
  | some (GLResponse.dict entries) =>
    match dictGet entries "error" with
    | some _ =>
      match dictGet entries "error_description" with
      | some d => Except.error (PyErr.glApiQueryError d)
      | none => Except.error (PyErr.keyError "error_description")
    | none =>
      match dictGet entries "message" with
      | some m => Except.error (PyErr.glApiQueryError m)
      | none => Except.error PyErr.typeErrorUnhashableDict
  | some (GLResponse.list items) => Except.ok items

/-- `helpers/gitlab_operations.py` `GitlabOps.get_users_from_group`, given the
outcome of the member query: the members as id/username pairs, keeping only
those whose `state` is `active` when `only_active` is set (its default). -/
def get_users_from_group (fetch : Option GLResponse) (only_active : Bool) :
    Except PyErr (List (Nat × String)) := do
  let response ← process_response_from_server fetch
  if only_active then
    pure ((response.filter (fun i => i.state = "active")).map
      (fun i => (i.id, i.username)))
  else
    pure (response.map (fun i => (i.id, i.username)))

end GitlabOps

/-- C1: deleting an account whose stored uid is at most 1000, with the
system-user protection on (the default `delete_system_users = false`), raises
`UOProtectedUserError` and executes no command, leaving account state
unchanged. -/
theorem delete_user_protected (passwd : String → Option Nat) (u : String)
    (uid : Nat) (hfound : passwd u = some uid) (hle : uid ≤ 1000) :
    UserOps.delete_user passwd false u = (Except.error UOError.protectedUser, []) := by
  simp [UserOps.delete_user, UserOps.get_user_uid, hfound, hle]

theorem delete_user_protected_witness :
    UserOps.delete_user (fun _ => some 500) false "carol"
      = (Except.error UOError.protectedUser, []) :=
  delete_user_protected (fun _ => some 500) "carol" 500 rfl (by decide)

/-- C2: for desired set `D` and observed set `O`, the computed
`created_users = D − O` and `removed_users = O − D` are disjoint, and together
with `O ∩ D` they partition `D ∪ O`. -/
theorem reconcile_sets_partition (D O : Finset String) :
    Disjoint (AutomataScript.created_users O D) (AutomataScript.removed_users O D) ∧
      AutomataScript.created_users O D ∪ (O ∩ D) ∪ AutomataScript.removed_users O D
        = D ∪ O := by
  constructor
  · rw [Finset.disjoint_left]
    intro a ha hb
    simp only [AutomataScript.created_users, AutomataScript.removed_users,
      Finset.mem_sdiff] at ha hb
    exact hb.2 ha.1
  · ext a
    simp only [AutomataScript.created_users, AutomataScript.removed_users,
      Finset.mem_union, Finset.mem_inter, Finset.mem_sdiff]
    tauto

/-- C5: a failed `useradd` with exit status 9 raises
`UOUserAlreadyExistsError`, but any other failure is swallowed by
`create_user`: with exit status 12 (home-directory creation failed after the
passwd entry was committed, here with uid 1500) the call reports success and
returns the uid as though creation had succeeded. -/
theorem create_user_swallows_failure :
    UserOps.create_user (fun _ => some 1500) (some 9) "dave"
        = Except.error UOError.userAlreadyExists ∧
      UserOps.create_user (fun _ => some 1500) (some 12) "dave" = Except.ok 1500 :=
  ⟨rfl, rfl⟩

/-- C6 counterexample: the first-generation `sanitize_username` of
`ssh_key_object.py` does not replace a hyphen — a character outside
`[A-Za-z0-9_]` — so it differs from the spec's canonicalization. -/
theorem sanitize_username_not_spec :
    SSHKeyObject.sanitize_username "a-b" ≠ spec_canonicalUsername "a-b" := by
  decide

/-- Per-character agreement between Python's ASCII word class and the spec's
`[A-Za-z0-9_]`. -/
theorem isWordChar_eq_spec (c : Char) :
    ConfigOps.isWordChar c
      = (('A' ≤ c && c ≤ 'Z') || ('a' ≤ c && c ≤ 'z')
          || ('0' ≤ c && c ≤ '9') || c = '_') := by
  rw [Bool.eq_iff_iff]
  simp only [ConfigOps.isWordChar, Char.isAlphanum, Char.isAlpha, Char.isDigit,
    Char.isUpper, Char.isLower, Bool.or_eq_true, Bool.and_eq_true,
    decide_eq_true_eq, Char.le_def, ge_iff_le]
  tauto

/-- C6 (amended): the active `sanitize_username` of
`helpers/config_operations.py` replaces every character outside
`[A-Za-z0-9_]` with an underscore on ASCII input (the embedding's domain of
faithfulness to Python's regex word class), while the first-generation
`sanitize_username` of `ssh_key_object.py`, used by `automata.py`, replaces
only dots, leaving other illegal characters such as a hyphen unchanged. -/
theorem sanitize_username_semantics (u : String)
    (hascii : ∀ c ∈ u.data, c.toNat < 128) :
    ConfigOps.sanitize_username u = spec_canonicalUsername u ∧
      SSHKeyObject.sanitize_username "jane.doe" = "jane_doe" ∧
      SSHKeyObject.sanitize_username "a-b" = "a-b" := by
  refine ⟨?_, by decide, by decide⟩
  unfold ConfigOps.sanitize_username spec_canonicalUsername
  refine congrArg String.mk (List.map_congr_left fun c hc => ?_)
  have := hascii c hc
  rw [isWordChar_eq_spec]

theorem sanitize_username_semantics_witness :
    ConfigOps.sanitize_username "jane.doe" = spec_canonicalUsername "jane.doe" ∧
      SSHKeyObject.sanitize_username "jane.doe" = "jane_doe" ∧
      SSHKeyObject.sanitize_username "a-b" = "a-b" :=
  sanitize_username_semantics "jane.doe" (by decide)

/-- C3: `populate_ssh_file` writes the key file under the directory obtained
by joining `base_dir` directly with `.ssh` — the username never enters the
path, so for base dir `/home` and user `alice` the file lands at
`/home/.ssh/authorized_keys`, not at the per-account path
`/home/alice/.ssh/authorized_keys` the claim describes (second conjunct:
what joining the home directory first would have produced). -/
theorem populate_ssh_file_ignores_username :
    UserOps.populate_ssh_file "/home" (fun _ => some 1500) "alice"
        ["ssh-rsa AAA"] (fun _ => MkdirResult.ok)
      = Except.ok ⟨"/home/.ssh/authorized_keys", "ssh-rsa AAA\n"⟩ ∧
    pathJoin (pathJoin (pathJoin "/home" "alice") ".ssh") "authorized_keys"
      = "/home/alice/.ssh/authorized_keys" := by
  exact ⟨rfl, rfl⟩

/-- C7: whenever `populate_ssh_file` succeeds, the content it writes is
exactly `dump_authorized_keys` of the key list — the newline-join with one
trailing newline — and for an empty key list that content is precisely the
one-character string consisting of a newline. -/
theorem authorized_keys_content (base_dir : String)
    (passwd : String → Option Nat) (username : String) (ssh_keys : List String)
    (mkdir : String → MkdirResult) (w : FileWrite)
    (hw : UserOps.populate_ssh_file base_dir passwd username ssh_keys mkdir
      = Except.ok w) :
    w.contents = SSHKeyObject.dump_authorized_keys ssh_keys ∧
      (ssh_keys = [] → w.contents = "\n" ∧ w.contents.data = ['\n']) := by
  dsimp only [UserOps.populate_ssh_file] at hw
  split at hw
  · exact absurd hw (by simp)
  · split at hw
    · exact absurd hw (by simp)
    · cases hw
      refine ⟨rfl, fun h => ?_⟩
      subst h
      exact ⟨rfl, rfl⟩

theorem authorized_keys_content_witness :
    (FileWrite.mk "/home/.ssh/authorized_keys" "\n").contents
        = SSHKeyObject.dump_authorized_keys [] ∧
      (([] : List String) = [] →
        (FileWrite.mk "/home/.ssh/authorized_keys" "\n").contents = "\n" ∧
        (FileWrite.mk "/home/.ssh/authorized_keys" "\n").contents.data = ['\n']) :=
  authorized_keys_content "/home" (fun _ => some 1500) "eve" []
    (fun _ => MkdirResult.ok) (FileWrite.mk "/home/.ssh/authorized_keys" "\n")
    (by decide)

/-- C4: `generate_sudoers_file` fully regenerates the file, but its template
carries no newline, so two mappings produce a single line with both entries
concatenated — the content contains no newline character at all, not one line
per mapping. -/
theorem generate_sudoers_no_newlines :
    UserOps.generate_sudoers_file
        [⟨"gl-admins", "admins", "ALL=(ALL) NOPASSWD: ALL", []⟩,
         ⟨"gl-devs", "devs", "ALL=(ALL) ALL", []⟩]
      = "%admins ALL=(ALL) NOPASSWD: ALL%devs ALL=(ALL) ALL" ∧
    (UserOps.generate_sudoers_file
        [⟨"gl-admins", "admins", "ALL=(ALL) NOPASSWD: ALL", []⟩,
         ⟨"gl-devs", "devs", "ALL=(ALL) ALL", []⟩]).data.count '\n' = 0 := by
  decide

/-- C9: a connection failure raises `GLConnectionError` and a dict carrying a
`message` key raises `GLApiQueryError`, as claimed; but a dict with neither an
`error` nor a `message` key (here the empty object) reaches
`response[response]` and dies with a `TypeError`, and a dict with an `error`
key but no `error_description` dies with a `KeyError` — not the claimed
`GLApiQueryError`. -/
theorem process_response_error_shapes :
    GitlabOps.process_response_from_server none
        = Except.error PyErr.glConnectionError ∧
      GitlabOps.process_response_from_server
          (some (GLResponse.dict [("message", "404 Not Found")]))
        = Except.error (PyErr.glApiQueryError "404 Not Found") ∧
      GitlabOps.process_response_from_server (some (GLResponse.dict []))
        = Except.error PyErr.typeErrorUnhashableDict ∧
      GitlabOps.process_response_from_server
          (some (GLResponse.dict [("error", "invalid_token")]))
        = Except.error (PyErr.keyError "error_description") := by
  refine ⟨rfl, ?_, rfl, ?_⟩ <;> decide

/-- C10: with `only_active` set (its default), `get_users_from_group` returns
exactly the id/username pairs of the members whose `state` is `active`:
every returned pair comes from an active member, and every active member is
returned — members in any other state are excluded. -/
theorem get_users_only_active (items : List MemberRec)
    (l : List (Nat × String))
    (h : GitlabOps.get_users_from_group (some (GLResponse.list items)) true
      = Except.ok l) :
    (∀ p ∈ l, ∃ r ∈ items, r.state = "active" ∧ p = (r.id, r.username)) ∧
      (∀ r ∈ items, r.state = "active" → (r.id, r.username) ∈ l) := by
  have hl : l = (items.filter (fun i => i.state = "active")).map
      (fun i => (i.id, i.username)) := by
    simp only [GitlabOps.get_users_from_group,
      GitlabOps.process_response_from_server, bind, Except.bind, if_true,
      pure, Except.pure, Except.ok.injEq] at h
    exact h.symm
  subst hl
  constructor
  · intro p hp
    simp only [List.mem_map, List.mem_filter, decide_eq_true_eq] at hp
    obtain ⟨r, ⟨hr, hst⟩, hpr⟩ := hp
    exact ⟨r, hr, hst, hpr.symm⟩
  · intro r hr hst
    simp only [List.mem_map, List.mem_filter, decide_eq_true_eq]
    exact ⟨r, ⟨hr, hst⟩, rfl⟩

theorem get_users_only_active_witness :
    (∀ p ∈ [((1 : Nat), "alice")],
        ∃ r ∈ [MemberRec.mk 1 "alice" "active", MemberRec.mk 2 "bob" "blocked"],
          r.state = "active" ∧ p = (r.id, r.username)) ∧
      (∀ r ∈ [MemberRec.mk 1 "alice" "active", MemberRec.mk 2 "bob" "blocked"],
        r.state = "active" → (r.id, r.username) ∈ [((1 : Nat), "alice")]) :=
  get_users_only_active
    [MemberRec.mk 1 "alice" "active", MemberRec.mk 2 "bob" "blocked"]
    [((1 : Nat), "alice")] (by decide)

open AutomataScript

/-- Every operation a loop attempts comes from one of its users. -/
theorem runLoop_mem (mk : String → Event) (ok : Event → Bool) (us : List String) :
    ∀ e ∈ (runLoop mk ok us).1, ∃ u, u ∈ us ∧ e = mk u := by
  induction us with
  | nil => intro e he; simp [runLoop] at he
  | cons u rest ih =>
    intro e he
    simp only [runLoop] at he
    by_cases h : ok (mk u)
    · rw [if_pos h] at he
      rcases List.mem_cons.mp he with rfl | hmem
      · exact ⟨u, List.mem_cons_self u rest, rfl⟩
      · obtain ⟨v, hv, rfl⟩ := ih _ hmem
        exact ⟨v, List.mem_cons_of_mem _ hv, rfl⟩
    · rw [if_neg h] at he
      rcases List.mem_singleton.mp he with rfl
      exact ⟨u, List.mem_cons_self u rest, rfl⟩

/-- A loop that completes performed exactly one operation per user, in
order. -/
theorem runLoop_success (mk : String → Event) (ok : Event → Bool)
    (us : List String) (h : (runLoop mk ok us).2 = true) :
    (runLoop mk ok us).1 = us.map mk := by
  induction us with
  | nil => rfl
  | cons u rest ih =>
    simp only [runLoop] at h ⊢
    by_cases hok : ok (mk u)
    · rw [if_pos hok] at h ⊢
      simp only [List.map_cons]
      exact congrArg (List.cons (mk u)) (ih h)
    · rw [if_neg hok] at h
      simp at h

/-- A trace of constant rank is phase-sorted. -/
theorem pairwise_rank_const (tr : List Event) (r : Nat)
    (h : ∀ e ∈ tr, Event.rank e = r) : PhaseSorted tr := by
  induction tr with
  | nil => exact List.Pairwise.nil
  | cons e rest ih =>
    refine List.Pairwise.cons (fun b hb => ?_)
      (ih fun x hx => h x (List.mem_cons_of_mem _ hx))
    rw [h e (List.mem_cons_self _ _), h b (List.mem_cons_of_mem _ hb)]

/-- All operations of one loop share the rank of its constructor. -/
theorem runLoop_rank (mk : String → Event) (ok : Event → Bool)
    (us : List String) (r : Nat) (hmk : ∀ u, Event.rank (mk u) = r) :
    ∀ e ∈ (runLoop mk ok us).1, Event.rank e = r := by
  intro e he
  obtain ⟨u, _, rfl⟩ := runLoop_mem mk ok us e he
  exact hmk u

/-- Concatenating phase-sorted traces whose ranks do not decrease across the
seam yields a phase-sorted trace. -/
theorem phaseSorted_append (t1 t2 : List Event)
    (h1 : PhaseSorted t1) (h2 : PhaseSorted t2)
    (hcross : ∀ a ∈ t1, ∀ b ∈ t2, Event.rank a ≤ Event.rank b) :
    PhaseSorted (t1 ++ t2) := by
  rw [PhaseSorted, List.pairwise_append]
  exact ⟨h1, h2, hcross⟩

theorem rank_le_three (e : Event) : Event.rank e ≤ 3 := by
  cases e <;> simp [Event.rank]

/-- C8: every run trace of `automata.py` is phase-sorted (all deletions
precede all creations, which precede all key writes, which precede the
sudoers write); if any creation was attempted then every pending deletion had
already been applied; if any key file was regenerated then every pending
creation had already been applied; and the sudoers file is written only in a
run where all three phases completed, as its very last operation. -/
theorem automata_run_ordering (gitlab_users current_users : List String)
    (ok : Event → Bool) :
    PhaseSorted (automataRun gitlab_users current_users ok).1 ∧
      (∀ v, Event.create v ∈ (automataRun gitlab_users current_users ok).1 →
        ∀ u ∈ current_users.filter (fun x => !gitlab_users.contains x),
          Event.delete u ∈ (automataRun gitlab_users current_users ok).1) ∧
      (∀ v, Event.writeKeys v ∈ (automataRun gitlab_users current_users ok).1 →
        ∀ u ∈ gitlab_users.filter (fun x => !current_users.contains x),
          Event.create u ∈ (automataRun gitlab_users current_users ok).1) ∧
      (Event.writeSudoers ∈ (automataRun gitlab_users current_users ok).1 →
        (automataRun gitlab_users current_users ok).2 = true ∧
        (automataRun gitlab_users current_users ok).1.getLast?
            = some Event.writeSudoers ∧
        ∀ u ∈ gitlab_users,
          Event.writeKeys u ∈ (automataRun gitlab_users current_users ok).1) := by
  simp only [automataRun]
  cases hd : (runLoop Event.delete ok
      (current_users.filter (fun u => !gitlab_users.contains u))).2
  · simp only [Bool.false_eq_true, if_false]
    refine ⟨pairwise_rank_const _ 0 (runLoop_rank Event.delete ok _ 0 fun _ => rfl),
      ?_, ?_, ?_⟩
    · intro v hv
      obtain ⟨u, _, h⟩ := runLoop_mem Event.delete ok _ _ hv
      exact absurd h (by simp)
    · intro v hv
      obtain ⟨u, _, h⟩ := runLoop_mem Event.delete ok _ _ hv
      exact absurd h (by simp)
    · intro hv
      obtain ⟨u, _, h⟩ := runLoop_mem Event.delete ok _ _ hv
      exact absurd h (by simp)
  · simp only [if_true]
    have hdel := runLoop_success Event.delete ok
      (current_users.filter (fun u => !gitlab_users.contains u)) hd
    have hdelsort : PhaseSorted (runLoop Event.delete ok
        (current_users.filter (fun u => !gitlab_users.contains u))).1 :=
      pairwise_rank_const _ 0 (runLoop_rank Event.delete ok _ 0 fun _ => rfl)
    cases hc : (runLoop Event.create ok
        (gitlab_users.filter (fun u => !current_users.contains u))).2
    · simp only [Bool.false_eq_true, if_false]
      refine ⟨?_, ?_, ?_, ?_⟩
      · refine phaseSorted_append _ _ hdelsort
          (pairwise_rank_const _ 1 (runLoop_rank Event.create ok _ 1 fun _ => rfl))
          (fun a ha b hb => ?_)
        rw [runLoop_rank Event.delete ok _ 0 (fun _ => rfl) a ha,
          runLoop_rank Event.create ok _ 1 (fun _ => rfl) b hb]
        omega
      · intro v _ u hu
        refine List.mem_append_left _ ?_
        rw [hdel]
        exact List.mem_map_of_mem _ hu
      · intro v hv u hu
        rcases List.mem_append.mp hv with h1 | h2
        · obtain ⟨w, _, h⟩ := runLoop_mem Event.delete ok _ _ h1
          exact absurd h (by simp)
        · obtain ⟨w, _, h⟩ := runLoop_mem Event.create ok _ _ h2
          exact absurd h (by simp)
      · intro hv
        rcases List.mem_append.mp hv with h1 | h2
        · obtain ⟨w, _, h⟩ := runLoop_mem Event.delete ok _ _ h1
          exact absurd h (by simp)
        · obtain ⟨w, _, h⟩ := runLoop_mem Event.create ok _ _ h2
          exact absurd h (by simp)
    · simp only [if_true]
      have hcre := runLoop_success Event.create ok
        (gitlab_users.filter (fun u => !current_users.contains u)) hc
      have hdcsort : PhaseSorted ((runLoop Event.delete ok
          (current_users.filter (fun u => !gitlab_users.contains u))).1 ++
          (runLoop Event.create ok
            (gitlab_users.filter (fun u => !current_users.contains u))).1) := by
        refine phaseSorted_append _ _ hdelsort
          (pairwise_rank_const _ 1 (runLoop_rank Event.create ok _ 1 fun _ => rfl))
          (fun a ha b hb => ?_)
        rw [runLoop_rank Event.delete ok _ 0 (fun _ => rfl) a ha,
          runLoop_rank Event.create ok _ 1 (fun _ => rfl) b hb]
        omega
      have hdc_rank : ∀ a ∈ (runLoop Event.delete ok
          (current_users.filter (fun u => !gitlab_users.contains u))).1 ++
          (runLoop Event.create ok
            (gitlab_users.filter (fun u => !current_users.contains u))).1,
          Event.rank a ≤ 1 := by
        intro a ha
        rcases List.mem_append.mp ha with h1 | h2
        · rw [runLoop_rank Event.delete ok _ 0 (fun _ => rfl) a h1]; omega
        · rw [runLoop_rank Event.create ok _ 1 (fun _ => rfl) a h2]
      cases hk : (runLoop Event.writeKeys ok gitlab_users).2
      · simp only [Bool.false_eq_true, if_false]
        refine ⟨?_, ?_, ?_, ?_⟩
        · refine phaseSorted_append _ _ hdcsort
            (pairwise_rank_const _ 2 (runLoop_rank Event.writeKeys ok _ 2 fun _ => rfl))
            (fun a ha b hb => ?_)
          rw [runLoop_rank Event.writeKeys ok _ 2 (fun _ => rfl) b hb]
          exact le_trans (hdc_rank a ha) (by omega)
        · intro v _ u hu
          refine List.mem_append_left _ (List.mem_append_left _ ?_)
          rw [hdel]
          exact List.mem_map_of_mem _ hu
        · intro v _ u hu
          refine List.mem_append_left _ (List.mem_append_right _ ?_)
          rw [hcre]
          exact List.mem_map_of_mem _ hu
        · intro hv
          rcases List.mem_append.mp hv with h12 | h3
          · rcases List.mem_append.mp h12 with h1 | h2
            · obtain ⟨w, _, h⟩ := runLoop_mem Event.delete ok _ _ h1
              exact absurd h (by simp)
            · obtain ⟨w, _, h⟩ := runLoop_mem Event.create ok _ _ h2
              exact absurd h (by simp)
          · obtain ⟨w, _, h⟩ := runLoop_mem Event.writeKeys ok _ _ h3
            exact absurd h (by simp)
      · simp only [if_true]
        have hkey := runLoop_success Event.writeKeys ok gitlab_users hk
        refine ⟨?_, ?_, ?_, fun _ => ⟨by trivial, ?_, ?_⟩⟩
        · refine phaseSorted_append _ _ ?_ (List.pairwise_singleton _ _)
            (fun a _ b hb => ?_)
          · refine phaseSorted_append _ _ hdcsort
              (pairwise_rank_const _ 2 (runLoop_rank Event.writeKeys ok _ 2 fun _ => rfl))
              (fun a ha b hb => ?_)
            rw [runLoop_rank Event.writeKeys ok _ 2 (fun _ => rfl) b hb]
            exact le_trans (hdc_rank a ha) (by omega)
          · rcases List.mem_singleton.mp hb with rfl
            exact rank_le_three a
        · intro v _ u hu
          refine List.mem_append_left _ (List.mem_append_left _
            (List.mem_append_left _ ?_))
          rw [hdel]
          exact List.mem_map_of_mem _ hu
        · intro v _ u hu
          refine List.mem_append_left _ (List.mem_append_left _
            (List.mem_append_right _ ?_))
          rw [hcre]
          exact List.mem_map_of_mem _ hu
        · simp
        · intro u hu
          refine List.mem_append_left _ (List.mem_append_right _ ?_)
          rw [hkey]
          exact List.mem_map_of_mem _ hu

theorem automata_run_ordering_witness :
    PhaseSorted (automataRun ["alice", "bob"] ["bob", "carol"]
        (fun _ => true)).1 ∧
      (∀ v, Event.create v ∈ (automataRun ["alice", "bob"] ["bob", "carol"]
          (fun _ => true)).1 →
        ∀ u ∈ ["bob", "carol"].filter (fun x => !(List.contains ["alice", "bob"] x)),
          Event.delete u ∈ (automataRun ["alice", "bob"] ["bob", "carol"]
            (fun _ => true)).1) ∧
      (∀ v, Event.writeKeys v ∈ (automataRun ["alice", "bob"] ["bob", "carol"]
          (fun _ => true)).1 →
        ∀ u ∈ ["alice", "bob"].filter (fun x => !(List.contains ["bob", "carol"] x)),
          Event.create u ∈ (automataRun ["alice", "bob"] ["bob", "carol"]
            (fun _ => true)).1) ∧
      (Event.writeSudoers ∈ (automataRun ["alice", "bob"] ["bob", "carol"]
          (fun _ => true)).1 →
        (automataRun ["alice", "bob"] ["bob", "carol"] (fun _ => true)).2
            = true ∧
        (automataRun ["alice", "bob"] ["bob", "carol"]
            (fun _ => true)).1.getLast? = some Event.writeSudoers ∧
        ∀ u ∈ ["alice", "bob"],
          Event.writeKeys u ∈ (automataRun ["alice", "bob"] ["bob", "carol"]
            (fun _ => true)).1) :=
  automata_run_ordering ["alice", "bob"] ["bob", "carol"] (fun _ => true)

end Automata
